import Mathlib

/-!
Verification of the Antigravity Code Review extension
(`src/extension.ts`, `src/uninstall.ts`) against its specification.

The TypeScript source is shallowly embedded: each stateful routine becomes a
pure Lean function over an explicit state, external effects (the host command
registry, the git binary, the filesystem) become oracles passed as arguments,
and every definition mirrors the control flow of the corresponding source
function.
-/

/-! ### String containment (JavaScript `String.prototype.includes`) -/

/-- Test `charsStartWith pat cs`: true when `pat` is an initial segment of `cs`.
Helper for the substring test below. -/
def charsStartWith : List Char → List Char → Bool
  | [], _ => true
  | _ :: _, [] => false
  | p :: ps, c :: cs => p == c && charsStartWith ps cs

/-- Test `charsInclude pat cs`: true when `pat` occurs contiguously in `cs`. -/
def charsInclude (pat : List Char) : List Char → Bool
  | [] => charsStartWith pat []
  | c :: cs => charsStartWith pat (c :: cs) || charsInclude pat cs

/-- Model of JavaScript `s.includes(pat)` used by `tryCommands` in
`src/extension.ts` to classify command identifiers. -/
def strIncludes (s pat : String) : Bool :=
  charsInclude pat.data s.data

/-! ### Delivery prober (`tryCommands`, `src/extension.ts` lines 298-345) -/

/-- Classification from `src/extension.ts` line 334:
`config.id.includes("focus") || config.id.includes("open") || config.id.includes("toggle")`. -/
def isOpener (id : String) : Bool :=
  strIncludes id "focus" || strIncludes id "open" || strIncludes id "toggle"

/-- The ordered candidate command identifiers from the `configs` array in
`tryCommands` (`src/extension.ts` lines 299-321).  The argument shapes are
omitted: they do not influence the control flow being verified. -/
def tryCommandsConfigs : List String :=
  [ "antigravity.sendTextToChat",
    "antigravity.sendPromptToAgentPanel",
    "antigravity.agentSidePanel.open",
    "antigravity.agentPanel.open",
    "antigravity.toggleChatFocus",
    "antigravity.prioritized.chat.open",
    "antigravity.prioritized.chat.open",
    "workbench.action.chat.open",
    "workbench.action.chat.send",
    "antigravity.askAI",
    "antigravity.agent.submit",
    "cascades.askAI" ]

/-- The loop of `tryCommands` (`src/extension.ts` lines 323-344).
`succeeds id` is the environment oracle: whether
`vscode.commands.executeCommand id ...` resolves rather than throws.
The accumulator `lastMatched` mirrors the mutable variable of the same name.
Returns the value the function returns together with the attempt log:
one `(identifier, outcome)` entry per candidate actually attempted
(`SUCCESS` / `FAILED` lines written to the output channel). -/
def tryCommandsRun (succeeds : String → Bool) :
    List String → Bool → Bool × List (String × Bool)
  | [], lastMatched => (lastMatched, [])
  | id :: rest, lastMatched =>
    if succeeds id then
      if isOpener id then
        -- opener success: record, wait, continue with lastMatched = true
        let r := tryCommandsRun succeeds rest true
        (r.1, (id, true) :: r.2)
      else
        -- non-opener success: `return true` immediately
        (true, [(id, true)])
    else
      -- `catch`: log the failure and continue
      let r := tryCommandsRun succeeds rest lastMatched
      (r.1, (id, false) :: r.2)

/-- Entry point of `tryCommands`: the loop starts with `lastMatched = false`. -/
def tryCommands (succeeds : String → Bool) (cfgs : List String) :
    Bool × List (String × Bool) :=
  tryCommandsRun succeeds cfgs false

/-- After `tryCommands` returns, `createReviewRequestFile`
(`src/extension.ts` lines 347-354) calls `vscode.env.clipboard.writeText`
exactly once when the result is falsy, and never otherwise. -/
def clipboardWriteCount (succeeds : String → Bool) (cfgs : List String) : Nat :=
  if (tryCommands succeeds cfgs).1 then 0 else 1

/-- A concrete environment in which exactly one candidate succeeds,
and that candidate is an opener. -/
def openerOnlySucceeds (id : String) : Bool :=
  id == "antigravity.agentSidePanel.open"

/-! ### Full-diff base resolution (`reviewChanges`, `src/extension.ts` lines 392-412) -/

/-- The git facts `reviewChanges` consults.  `resolves r` tells whether
`git rev-parse r` exits successfully; `headSha` is the (trimmed) output of
`git rev-parse HEAD` and `branch` of `git rev-parse --abbrev-ref HEAD`,
both of which have already succeeded when the base is resolved. -/
structure GitState where
  resolves : String → Bool
  headSha : String
  branch : String

/-- Base-reference resolution from `src/extension.ts` lines 395-412:
configuration value `auto` tries `origin/<branch>`, then `HEAD~1`, then the
head SHA; an explicit configured base is kept if it resolves, otherwise the
same `HEAD~1` / head-SHA fallback chain applies. -/
def resolveBase (configuredBase : String) (g : GitState) : String :=
  if configuredBase == "auto" then
    let trackingBranch := "origin/" ++ g.branch
    if g.resolves trackingBranch then trackingBranch
    else if g.resolves "HEAD~1" then "HEAD~1"
    else g.headSha
  else
    if g.resolves configuredBase then configuredBase
    else if g.resolves "HEAD~1" then "HEAD~1"
    else g.headSha

/-! ### JSON values and the manifest read (`getManifest`, `src/extension.ts` lines 19-28) -/

/-- JSON values, the result type of the host `JSON.parse`. -/
inductive Jval where
  | null : Jval
  | bool : Bool → Jval
  | str : String → Jval
  | arr : List Jval → Jval
  | obj : List (String × Jval) → Jval

/-- Skips JSON whitespace. -/
def skipWs : List Char → List Char
  | [] => []
  | c :: cs => if c == ' ' || c == '\n' || c == '\t' || c == '\r' then skipWs cs else c :: cs

/-- Reads the remainder of a string literal after the opening quote,
up to the closing quote. -/
def parseStrChars : List Char → Option (List Char × List Char)
  | [] => none
  | c :: cs =>
    if c == '"' then some ([], cs)
    else (parseStrChars cs).map fun p => (c :: p.1, p.2)

mutual
/-- Model of the host runtime `JSON.parse` called by `getManifest`
(`src/extension.ts` line 22): a recursive-descent parser for the fragment of
JSON consisting of `null`, booleans, string literals without escapes, and
arrays.  The host parser accepts more (numbers, objects, escapes); on the
fragment parsed here the two agree, and every input used in the theorems
below stays inside the fragment.  The fuel argument bounds recursion depth. -/
def parseVal : Nat → List Char → Option (Jval × List Char)
  | 0, _ => none
  | Nat.succ fuel, cs =>
    match skipWs cs with
    | 'n' :: 'u' :: 'l' :: 'l' :: rest => some (Jval.null, rest)
    | 't' :: 'r' :: 'u' :: 'e' :: rest => some (Jval.bool true, rest)
    | 'f' :: 'a' :: 'l' :: 's' :: 'e' :: rest => some (Jval.bool false, rest)
    | '"' :: rest => (parseStrChars rest).map fun p => (Jval.str (String.mk p.1), p.2)
    | '[' :: rest =>
      match skipWs rest with
      | ']' :: rest2 => some (Jval.arr [], rest2)
      | rest2 =>
        match parseElems fuel rest2 with
        | some (vs, rest3) => some (Jval.arr vs, rest3)
        | none => none
    | _ => none

/-- Parses the comma-separated elements of a JSON array up to the closing
bracket. -/
def parseElems : Nat → List Char → Option (List Jval × List Char)
  | 0, _ => none
  | Nat.succ fuel, cs =>
    match parseVal fuel cs with
    | none => none
    | some (v, rest) =>
      match skipWs rest with
      | ',' :: rest2 =>
        match parseElems fuel rest2 with
        | some (vs, rest3) => some (v :: vs, rest3)
        | none => none
      | ']' :: rest2 => some ([v], rest2)
      | _ => none
end

/-- Top-level `JSON.parse` model: a parse succeeds when a value is read and
only whitespace remains. -/
def jsonParse (s : String) : Option Jval :=
  match parseVal (s.length + 1) s.data with
  | some (v, rest) => if (skipWs rest).isEmpty then some v else none
  | none => none

/-- The empty-default manifest `{ installedPaths: [], extensionVersion: "" }`
(`src/extension.ts` line 27) as a JSON value. -/
def defaultManifestJ : Jval :=
  Jval.obj [("installedPaths", Jval.arr []), ("extensionVersion", Jval.str "")]

/-- Model of `getManifest` (`src/extension.ts` lines 19-28), abstracted over the JSON
parser it calls.  The manifest file state is `none` when
`fs.existsSync(MANIFEST_FILE)` is false, `some content` otherwise.  A parse
failure is the `catch` branch: the empty default is returned.  The parsed
value is returned unchanged (the source casts, it never validates), so the
result type is the raw JSON value.  The function is total: no error escapes. -/
def getManifest (parse : String → Option Jval) (file : Option String) : Jval :=
  match file with
  | none => defaultManifestJ
  | some content =>
    match parse content with
    | some v => v
    | none => defaultManifestJ

/-- Is a JSON value a string? -/
def isJsonString : Jval → Bool
  | Jval.str _ => true
  | _ => false

/-- Is a JSON value an array of strings? -/
def isStringArray : Jval → Bool
  | Jval.arr vs => vs.all isJsonString
  | _ => false

/-- Field lookup in a JSON object. -/
def lookupField (fields : List (String × Jval)) (k : String) : Option Jval :=
  (fields.find? fun p => p.1 == k).map fun p => p.2

/-- Whether a JSON value has the shape of the `InstalledSkillManifest`
interface (`src/extension.ts` lines 8-11): an object whose `installedPaths`
is an array of strings and whose `extensionVersion` is a string.
`getManifest` never performs this check; it is stated here only to express
what the source omits. -/
def isManifestShape : Jval → Bool
  | Jval.obj fields =>
    (match lookupField fields "installedPaths" with
     | some v => isStringArray v
     | none => false)
    && (match lookupField fields "extensionVersion" with
        | some v => isJsonString v
        | none => false)
  | _ => false

/-! ### Skill installer (`installSkillFiles` / `removeOldSkillFiles` / `activate`,
`src/extension.ts` lines 45-121) -/

/-- The typed manifest record (`InstalledSkillManifest`,
`src/extension.ts` lines 8-11) as the install path manipulates it. -/
structure InstalledSkillManifest where
  installedPaths : List String
  extensionVersion : String
deriving DecidableEq

/-- The two source files in the extension bundle resources folder
(`resources/SKILL.md`, `resources/code-review.md`); `none` when
`fs.existsSync` is false on the source path, otherwise the file content. -/
structure SkillBundle where
  skillSrc : Option String
  codeReviewSrc : Option String
deriving DecidableEq

/-- The two file slots of the destination directory
`<workspace>/.agents/skills/code-review`: content of `SKILL.md` and of
`code-review.md`, `none` when the file is absent. -/
structure SkillDirFiles where
  skillMd : Option String
  codeReviewMd : Option String
deriving DecidableEq

/-- Model of `removeOldSkillFiles` (`src/extension.ts` lines 80-93): each of the two
files is unlinked when present; either way the slot ends up empty. -/
def removeOldSkillFiles (_d : SkillDirFiles) : SkillDirFiles :=
  { skillMd := none, codeReviewMd := none }

/-- The `SKILL.md` copy step of `installSkillFiles`
(`src/extension.ts` lines 56-59): copied only when the source exists. -/
def copySkillMd (b : SkillBundle) (d : SkillDirFiles) : SkillDirFiles :=
  match b.skillSrc with
  | some c => { d with skillMd := some c }
  | none => d

/-- The `code-review.md` copy step of `installSkillFiles`
(`src/extension.ts` lines 62-65). -/
def copyCodeReviewMd (b : SkillBundle) (d : SkillDirFiles) : SkillDirFiles :=
  match b.codeReviewSrc with
  | some c => { d with codeReviewMd := some c }
  | none => d

/-- File effect of `installSkillFiles` on the destination directory:
`SKILL.md` is copied first, then `code-review.md`. -/
def installSkillFilesDir (b : SkillBundle) (d : SkillDirFiles) : SkillDirFiles :=
  copyCodeReviewMd b (copySkillMd b d)

/-- Manifest effect of `installSkillFiles` (`src/extension.ts` lines 68-73):
the destination is pushed only when `installedPaths.includes(destDir)` is
false, and the recorded version is overwritten. -/
def installManifestUpdate (m : InstalledSkillManifest) (destDir version : String) :
    InstalledSkillManifest :=
  { installedPaths :=
      if m.installedPaths.contains destDir then m.installedPaths
      else m.installedPaths ++ [destDir],
    extensionVersion := version }

/-- Model of `installSkillFiles` (`src/extension.ts` lines 45-74): the combined effect
on the destination directory and the manifest. -/
def installSkillFiles (b : SkillBundle) (d : SkillDirFiles)
    (m : InstalledSkillManifest) (destDir version : String) :
    SkillDirFiles × InstalledSkillManifest :=
  (installSkillFilesDir b d, installManifestUpdate m destDir version)

/-- Model of `path.join(workspacePath, ".agents", "skills", "code-review")` on a POSIX
separator. -/
def skillDestDir (workspacePath : String) : String :=
  workspacePath ++ "/.agents/skills/code-review"

/-- The install decision and action at activation
(`src/extension.ts` lines 105-121).  `workspaceFolder` is `none` when no
workspace folder is open.  Returns the destination directory state, the
manifest, and whether the install branch ran. -/
def activateStep (autoInstallSkills : Bool) (workspaceFolder : Option String)
    (b : SkillBundle) (d : SkillDirFiles) (m : InstalledSkillManifest)
    (extensionVersion : String) :
    SkillDirFiles × InstalledSkillManifest × Bool :=
  match workspaceFolder with
  | some ws =>
    if autoInstallSkills then
      -- needsInstall = !skillExists || manifest.extensionVersion !== extensionVersion
      if d.skillMd.isNone || m.extensionVersion != extensionVersion then
        let d1 := removeOldSkillFiles d
        let r := installSkillFiles b d1 m (skillDestDir ws) extensionVersion
        (r.1, r.2, true)
      else (d, m, false)
    else (d, m, false)
  | none => (d, m, false)

/-- The sequence of destination-directory states the activation install pass
moves through: initial state, after `removeOldSkillFiles`, after the
`SKILL.md` copy, after the `code-review.md` copy.  When the install branch
does not run, the state never changes. -/
def activateTrace (autoInstallSkills : Bool) (workspaceFolder : Option String)
    (b : SkillBundle) (d : SkillDirFiles) (m : InstalledSkillManifest)
    (extensionVersion : String) : List SkillDirFiles :=
  if (activateStep autoInstallSkills workspaceFolder b d m extensionVersion).2.2 then
    [d, removeOldSkillFiles d, copySkillMd b (removeOldSkillFiles d),
     copyCodeReviewMd b (copySkillMd b (removeOldSkillFiles d))]
  else [d]

/-! ### Teardown (`deactivate`, `src/extension.ts` lines 540-611) and the
uninstall hook (`removeSkillFiles`, `src/uninstall.ts` lines 24-92) -/

/-- Filesystem state relevant to one directory recorded in
`manifest.installedPaths`: whether each of the two documentation files
exists, how many other entries the directory holds, whether the directory
exists, and whether `code-review-request.md` exists at the workspace root
inferred from the directory (`path.resolve(skillDir, "..", "..", "..")`).
Distinct manifest entries are modelled as disjoint states. -/
structure DirState where
  skillMd : Bool
  codeReviewMd : Bool
  otherEntries : Nat
  dirExists : Bool
  reviewRequest : Bool
deriving DecidableEq

/-- Failure oracle for the deletions touching one directory: each flag tells
whether the corresponding filesystem call throws when attempted. -/
structure DirFail where
  failSkill : Bool
  failCodeReview : Bool
  failRmdir : Bool
  failRequest : Bool
deriving DecidableEq

/-- The all-succeed failure oracle. -/
def noDirFail : DirFail :=
  { failSkill := false, failCodeReview := false,
    failRmdir := false, failRequest := false }

/-- Number of entries `fs.readdirSync` reports for the skill directory. -/
def dirEntryCount (d : DirState) : Nat :=
  (if d.skillMd then 1 else 0) + (if d.codeReviewMd then 1 else 0) + d.otherEntries

/-- One iteration of the `deactivate` cleanup loop
(`src/extension.ts` lines 552-596).  Every deletion sits in its own
`try`/`catch`: a throw leaves that file in place and the iteration continues
with the next step. -/
def deactivateCleanupDir (f : DirFail) (d : DirState) : DirState :=
  let d1 := if d.skillMd && !f.failSkill then { d with skillMd := false } else d
  let d2 := if d1.codeReviewMd && !f.failCodeReview then { d1 with codeReviewMd := false } else d1
  let d3 :=
    if d2.dirExists && dirEntryCount d2 == 0 && !f.failRmdir then
      { d2 with dirExists := false }
    else d2
  if d3.reviewRequest && !f.failRequest then { d3 with reviewRequest := false } else d3

/-- Filesystem state of the manifest file and its containing directory
(`~/.antigravity-code-review/installed-skills.json`). -/
structure ManifestFsState where
  manifestFileExists : Bool
  manifestDirOtherEntries : Nat
  manifestDirExists : Bool
deriving DecidableEq

/-- Entries `fs.readdirSync` reports for the manifest directory. -/
def manifestDirEntryCount (m : ManifestFsState) : Nat :=
  (if m.manifestFileExists then 1 else 0) + m.manifestDirOtherEntries

/-- The final manifest cleanup of `deactivate`
(`src/extension.ts` lines 599-608): one `try` around unlinking the manifest
file and removing its directory when empty; a throw of the unlink skips the
rmdir, and either way the failure is swallowed. -/
def deactivateManifestCleanup (failUnlink failRmdir : Bool) (m : ManifestFsState) :
    ManifestFsState :=
  if m.manifestFileExists && failUnlink then m
  else if m.manifestDirExists &&
      manifestDirEntryCount { m with manifestFileExists := false } == 0 &&
      !failRmdir then
    { m with manifestFileExists := false, manifestDirExists := false }
  else { m with manifestFileExists := false }

/-- Model of `deactivate` (`src/extension.ts` lines 540-611).  `dirs` pairs each
directory listed in `manifest.installedPaths` with its failure oracle; the
loop handles every entry independently, and the manifest cleanup runs
afterwards no matter what the loop iterations did. -/
def deactivate (cleanupOnDeactivate : Bool) (dirs : List (DirFail × DirState))
    (failManifestUnlink failManifestRmdir : Bool) (m : ManifestFsState) :
    List DirState × ManifestFsState :=
  if !cleanupOnDeactivate then (dirs.map fun p => p.2, m)
  else
    (dirs.map fun p => deactivateCleanupDir p.1 p.2,
     deactivateManifestCleanup failManifestUnlink failManifestRmdir m)

/-- One iteration of the uninstall-hook loop
(`src/uninstall.ts` lines 33-68).  Unlike `deactivate`, the three unlink
calls are not individually guarded: a throw aborts the whole cleanup (second
component `true`), leaving the current directory in its partial state.  Only
the readdir/rmdir step has a local `try` that swallows its failure. -/
def uninstallDirStep (f : DirFail) (d : DirState) : DirState × Bool :=
  if d.skillMd && f.failSkill then (d, true)
  else
    let d1 := if d.skillMd then { d with skillMd := false } else d
    if d1.codeReviewMd && f.failCodeReview then (d1, true)
    else
      let d2 := if d1.codeReviewMd then { d1 with codeReviewMd := false } else d1
      let d3 :=
        if d2.dirExists && dirEntryCount d2 == 0 && !f.failRmdir then
          { d2 with dirExists := false }
        else d2
      if d3.reviewRequest && f.failRequest then (d3, true)
      else (if d3.reviewRequest then { d3 with reviewRequest := false } else d3, false)

/-- The uninstall-hook loop over the manifest entries: a thrown deletion
stops the loop, leaving every later directory untouched. -/
def uninstallDirs : List (DirFail × DirState) → List DirState × Bool
  | [] => ([], false)
  | p :: rest =>
    let r := uninstallDirStep p.1 p.2
    if r.2 then (r.1 :: rest.map fun q => q.2, true)
    else
      let rs := uninstallDirs rest
      (r.1 :: rs.1, rs.2)

/-- Model of `removeSkillFiles` (`src/uninstall.ts` lines 24-92).  The loop and the
manifest unlink share the single outer `catch`: if the loop throws, the
manifest file is never unlinked; if the manifest unlink itself throws, the
directory removal is skipped.  When the manifest file is absent nothing
happens at all. -/
def removeSkillFiles (dirs : List (DirFail × DirState))
    (failManifestUnlink failManifestRmdir : Bool) (m : ManifestFsState) :
    List DirState × ManifestFsState :=
  if !m.manifestFileExists then (dirs.map fun p => p.2, m)
  else
    let r := uninstallDirs dirs
    if r.2 then (r.1, m)
    else if failManifestUnlink then (r.1, m)
    else
      let m1 := { m with manifestFileExists := false }
      (r.1,
       if m1.manifestDirExists && manifestDirEntryCount m1 == 0 && !failManifestRmdir then
         { m1 with manifestDirExists := false }
       else m1)

/-! ### Active-file builder (`reviewActiveFile`, `src/extension.ts` lines 441-469) -/

/-- The active editor as the builder reads it: `document.fileName` (the full
path), `document.languageId`, and `document.getText()`. -/
structure EditorState where
  filePath : String
  languageId : String
  text : String

/-- Model of `path.basename` on a POSIX separator: the last path component. -/
def pathBasename (p : String) : String :=
  match (p.splitOn "/").getLast? with
  | some s => s
  | none => p

/-- The review-request body rendered by `reviewActiveFile`
(`src/extension.ts` lines 449-467), a template literal over the file name,
path, language id and full text. -/
def activeFileRequest (e : EditorState) : String :=
  "\n# Code Review Request (Single File)\n\n**TARGET_FILE:** "
    ++ pathBasename e.filePath
    ++ "\n**FILE_PATH:** "
    ++ e.filePath
    ++ "\n**DESCRIPTION:** Targeted review for the current active file.\n\n## TASK FOR AGENT\nPerform a deep-dive review of the code provided below. Focus heavily on:\n- Morakot snake_case/CamelCase naming rules.\n- XSS prevention in Jinja/HTML templates.\n- Function verb requirements (is, get, set, etc.).\n\n---\n### Source Code\n```"
    ++ e.languageId
    ++ "\n"
    ++ e.text
    ++ "\n```\n"

/-- Outcome of the `antigravity.reviewActiveFile` command handler: the error
notification shown (if any), the request body handed to
`createReviewRequestFile` (if any), and how many times the handler invoked
the git binary.  The handler contains no `execSync` call. -/
structure ReviewActiveFileResult where
  errorMessage : Option String
  requestDoc : Option String
  gitInvocations : Nat

/-- Model of `reviewActiveFile` (`src/extension.ts` lines 441-469): with no active
editor it shows an error and returns; otherwise it renders the request body
from the editor state alone. -/
def reviewActiveFile (editor : Option EditorState) : ReviewActiveFileResult :=
  match editor with
  | none =>
    { errorMessage := some "No file is currently open.", requestDoc := none,
      gitInvocations := 0 }
  | some e =>
    { errorMessage := none, requestDoc := some (activeFileRequest e),
      gitInvocations := 0 }

/-- Proposition that `pat` occurs contiguously in `s`. -/
def StrContains (s pat : String) : Prop :=
  ∃ l r : List Char, s.data = l ++ pat.data ++ r

/-! ## Theorems -/

/-- Helper: when every succeeding candidate is an opener, the loop never
returns early, so it returns its `lastMatched` accumulator or-ed with
whether any candidate succeeded. -/
theorem tryCommandsRun_openers_only (succeeds : String → Bool) :
    ∀ (cfgs : List String),
      (∀ id ∈ cfgs, succeeds id = true → isOpener id = true) →
      ∀ lm : Bool, (tryCommandsRun succeeds cfgs lm).1 = (lm || cfgs.any succeeds) := by
  intro cfgs
  induction cfgs with
  | nil => intro _ lm; simp [tryCommandsRun]
  | cons id rest ih =>
    intro h lm
    have hid := h id (List.mem_cons_self id rest)
    have hrest : ∀ i ∈ rest, succeeds i = true → isOpener i = true :=
      fun i hi => h i (List.mem_cons_of_mem id hi)
    cases hs : succeeds id with
    | true =>
      have hop := hid hs
      simp [tryCommandsRun, hs, hop, ih hrest true]
    | false =>
      simp [tryCommandsRun, hs, ih hrest lm]

/-- C1 (counterexample): a run in which the only succeeding candidate is the
opener `antigravity.agentSidePanel.open`.  Every succeeding candidate is an
opener, yet `tryCommands` reports overall success and the prompt is never
copied to the clipboard — the claim predicts failure and one clipboard copy. -/
theorem tryCommands_opener_only_counterexample :
    (tryCommandsConfigs.all fun id => !openerOnlySucceeds id || isOpener id) = true ∧
    (tryCommands openerOnlySucceeds tryCommandsConfigs).1 = true ∧
    clipboardWriteCount openerOnlySucceeds tryCommandsConfigs = 0 := by
  decide

/-- C1 (amended): in a run of the delivery prober in which every succeeding
candidate is an opener, the prober reports overall success exactly when some
candidate succeeded, and the prompt is copied to the clipboard exactly once
when no candidate succeeded and zero times otherwise. -/
theorem tryCommands_opener_only_amended (succeeds : String → Bool)
    (cfgs : List String)
    (h : ∀ id ∈ cfgs, succeeds id = true → isOpener id = true) :
    (tryCommands succeeds cfgs).1 = cfgs.any succeeds ∧
    clipboardWriteCount succeeds cfgs = (if cfgs.any succeeds then 0 else 1) := by
  have h1 : (tryCommands succeeds cfgs).1 = cfgs.any succeeds := by
    simpa [tryCommands] using tryCommandsRun_openers_only succeeds cfgs h false
  exact ⟨h1, by simp [clipboardWriteCount, h1]⟩

/-- Witness for the amended C1 at the concrete candidate list with the
concrete opener-only environment. -/
theorem tryCommands_opener_only_amended_witness :
    (tryCommands openerOnlySucceeds tryCommandsConfigs).1 =
      tryCommandsConfigs.any openerOnlySucceeds ∧
    clipboardWriteCount openerOnlySucceeds tryCommandsConfigs =
      (if tryCommandsConfigs.any openerOnlySucceeds then 0 else 1) :=
  tryCommands_opener_only_amended openerOnlySucceeds tryCommandsConfigs (by decide)

/-- Helper: the loop stops at the first non-opener success, and logs an
outcome for exactly the candidates attempted up to and including it. -/
theorem tryCommandsRun_stops_at_nonopener (succeeds : String → Bool) :
    ∀ (pre : List String) (c : String) (rest : List String) (lm : Bool),
      (∀ id ∈ pre, succeeds id = true → isOpener id = true) →
      succeeds c = true → isOpener c = false →
      tryCommandsRun succeeds (pre ++ c :: rest) lm =
        (true, (pre ++ [c]).map fun id => (id, succeeds id)) := by
  intro pre
  induction pre with
  | nil =>
    intro c rest lm _ hs hn
    simp [tryCommandsRun, hs, hn]
  | cons id pre ih =>
    intro c rest lm h hs hn
    have hid := h id (List.mem_cons_self id pre)
    have hpre : ∀ i ∈ pre, succeeds i = true → isOpener i = true :=
      fun i hi => h i (List.mem_cons_of_mem id hi)
    cases hsid : succeeds id with
    | true =>
      have hop := hid hsid
      simp [tryCommandsRun, hsid, hop, ih c rest true hpre hs hn]
    | false =>
      simp [tryCommandsRun, hsid, ih c rest lm hpre hs hn]

/-- C2: the prober iterates candidates in order; at the first candidate that
succeeds and is not an opener it stops immediately with overall success, and
the attempt log holds one outcome per candidate attempted up to and
including that candidate (earlier candidates either failed or were opener
successes). -/
theorem tryCommands_stops_at_first_nonopener (succeeds : String → Bool)
    (pre : List String) (c : String) (rest : List String)
    (hpre : ∀ id ∈ pre, succeeds id = true → isOpener id = true)
    (hs : succeeds c = true) (hn : isOpener c = false) :
    (tryCommands succeeds (pre ++ c :: rest)).1 = true ∧
    (tryCommands succeeds (pre ++ c :: rest)).2 =
      (pre ++ [c]).map fun id => (id, succeeds id) := by
  simp [tryCommands, tryCommandsRun_stops_at_nonopener succeeds pre c rest false hpre hs hn]

/-- Witness for C2: the environment in which only
`workbench.action.chat.send` succeeds; the prober stops there (position 9 of
the candidate list) with the log covering exactly the first nine attempts. -/
theorem tryCommands_stops_at_first_nonopener_witness :
    (tryCommands (fun id => id == "workbench.action.chat.send")
        (["antigravity.sendTextToChat",
          "antigravity.sendPromptToAgentPanel",
          "antigravity.agentSidePanel.open",
          "antigravity.agentPanel.open",
          "antigravity.toggleChatFocus",
          "antigravity.prioritized.chat.open",
          "antigravity.prioritized.chat.open",
          "workbench.action.chat.open"] ++
         "workbench.action.chat.send" ::
          ["antigravity.askAI",
           "antigravity.agent.submit",
           "cascades.askAI"])).1 = true ∧
    (tryCommands (fun id => id == "workbench.action.chat.send")
        (["antigravity.sendTextToChat",
          "antigravity.sendPromptToAgentPanel",
          "antigravity.agentSidePanel.open",
          "antigravity.agentPanel.open",
          "antigravity.toggleChatFocus",
          "antigravity.prioritized.chat.open",
          "antigravity.prioritized.chat.open",
          "workbench.action.chat.open"] ++
         "workbench.action.chat.send" ::
          ["antigravity.askAI",
           "antigravity.agent.submit",
           "cascades.askAI"])).2 =
      (["antigravity.sendTextToChat",
        "antigravity.sendPromptToAgentPanel",
        "antigravity.agentSidePanel.open",
        "antigravity.agentPanel.open",
        "antigravity.toggleChatFocus",
        "antigravity.prioritized.chat.open",
        "antigravity.prioritized.chat.open",
        "workbench.action.chat.open"] ++ ["workbench.action.chat.send"]).map
        fun id => (id, (fun id => id == "workbench.action.chat.send") id) :=
  tryCommands_stops_at_first_nonopener (fun id => id == "workbench.action.chat.send")
    _ "workbench.action.chat.send" _ (by decide) (by decide) (by decide)

/-- C3: base-reference resolution of the full-diff builder.  With the
configured base `auto`, the base is the remote-tracking branch when it
resolves, else the previous commit when it resolves, else the current head
SHA.  With an explicit configured base, that ref when it resolves, else the
same fallback chain. -/
theorem resolveBase_spec (g : GitState) (cfg : String) :
    (cfg = "auto" →
      (g.resolves ("origin/" ++ g.branch) = true →
        resolveBase cfg g = "origin/" ++ g.branch) ∧
      (g.resolves ("origin/" ++ g.branch) = false → g.resolves "HEAD~1" = true →
        resolveBase cfg g = "HEAD~1") ∧
      (g.resolves ("origin/" ++ g.branch) = false → g.resolves "HEAD~1" = false →
        resolveBase cfg g = g.headSha)) ∧
    (cfg ≠ "auto" →
      (g.resolves cfg = true → resolveBase cfg g = cfg) ∧
      (g.resolves cfg = false → g.resolves "HEAD~1" = true →
        resolveBase cfg g = "HEAD~1") ∧
      (g.resolves cfg = false → g.resolves "HEAD~1" = false →
        resolveBase cfg g = g.headSha)) := by
  constructor
  · intro hauto
    subst hauto
    refine ⟨fun h1 => ?_, fun h1 h2 => ?_, fun h1 h2 => ?_⟩ <;>
      simp [resolveBase, h1, *]
  · intro hne
    have hbeq : (cfg == "auto") = false := by
      simpa using hne
    refine ⟨fun h1 => ?_, fun h1 h2 => ?_, fun h1 h2 => ?_⟩ <;>
      simp [resolveBase, hbeq, h1, *]

/-- Witness for C3: a repository with a single commit, no remote-tracking
branch and no parent commit, reviewed with the default `auto` base: the base
falls back to the head SHA itself. -/
theorem resolveBase_spec_witness :
    resolveBase "auto" ⟨fun _ => false, "abc123", "main"⟩ =
      (⟨fun _ => false, "abc123", "main"⟩ : GitState).headSha :=
  ((resolveBase_spec ⟨fun _ => false, "abc123", "main"⟩ "auto").1 rfl).2.2 rfl rfl

/-- C4: for an absent manifest file, and for any file content on which the
JSON parser fails, `getManifest` returns the empty default manifest.  The
function is total, so no error is ever raised. -/
theorem getManifest_default_on_absent_or_malformed (parse : String → Option Jval) :
    getManifest parse none = defaultManifestJ ∧
    ∀ content : String, parse content = none →
      getManifest parse (some content) = defaultManifestJ := by
  refine ⟨rfl, fun content h => ?_⟩
  simp [getManifest, h]

/-- Witness for C4 with the concrete JSON parser: the absent file and the
unparseable content `not json` both yield the empty default manifest. -/
theorem getManifest_default_witness :
    getManifest jsonParse none = defaultManifestJ ∧
    getManifest jsonParse (some "not json") = defaultManifestJ :=
  ⟨(getManifest_default_on_absent_or_malformed jsonParse).1,
   (getManifest_default_on_absent_or_malformed jsonParse).2 "not json" rfl⟩

/-- C9: `getManifest` validates only JSON parseability, never the shape of
the result: every successfully parsed value is returned unchanged, and there
is a file content (the literal `null`) that parses to a value that is not a
well-formed manifest and differs from the empty default. -/
theorem getManifest_no_shape_validation :
    (∀ (content : String) (v : Jval), jsonParse content = some v →
      getManifest jsonParse (some content) = v) ∧
    ∃ (content : String) (v : Jval), jsonParse content = some v ∧
      isManifestShape v = false ∧ v ≠ defaultManifestJ := by
  constructor
  · intro content v h
    simp [getManifest, h]
  · exact ⟨"null", Jval.null, rfl, rfl, fun h => Jval.noConfusion h⟩

/-- Witness for C9: the file content `null` parses, is not a manifest shape,
and is returned unchanged by `getManifest`. -/
theorem getManifest_no_shape_validation_witness :
    jsonParse "null" = some Jval.null ∧
    isManifestShape Jval.null = false ∧
    getManifest jsonParse (some "null") = Jval.null :=
  ⟨rfl, rfl, getManifest_no_shape_validation.1 "null" Jval.null rfl⟩

/-- C5: at activation the install pass runs exactly when auto-install is
enabled, a workspace folder is open, and either the destination `SKILL.md`
is missing or the recorded manifest version differs from the current one;
and whenever it runs, `removeOldSkillFiles` precedes the two copies, so no
state the destination moves through holds one file of the old version
together with one file of the new version. -/
theorem activateStep_policy (ai : Bool) (ws : Option String) (b : SkillBundle)
    (d : SkillDirFiles) (m : InstalledSkillManifest) (v : String) :
    ((activateStep ai ws b d m v).2.2 = true ↔
      (ws.isSome = true ∧ ai = true ∧
        (d.skillMd = none ∨ m.extensionVersion ≠ v))) ∧
    (∀ nS nC oldS oldC : String,
      b.skillSrc = some nS → b.codeReviewSrc = some nC →
      d.skillMd ≠ some nS → d.codeReviewMd ≠ some nC →
      nS ≠ oldS → nC ≠ oldC →
      ∀ s ∈ activateTrace ai ws b d m v,
        ¬((s.skillMd = some oldS ∧ s.codeReviewMd = some nC) ∨
          (s.skillMd = some nS ∧ s.codeReviewMd = some oldC))) := by
  constructor
  · cases ws with
    | none => simp [activateStep]
    | some w =>
      cases ai with
      | false => simp [activateStep]
      | true =>
        by_cases hc : (d.skillMd.isNone || m.extensionVersion != v) = true
        · simp only [activateStep, hc, if_true]
          simp only [Bool.or_eq_true, Option.isNone_iff_eq_none, bne_iff_ne] at hc
          simpa using hc
        · simp only [activateStep, hc, if_false]
          simp only [Bool.or_eq_true, Option.isNone_iff_eq_none, bne_iff_ne] at hc
          push_neg at hc
          simp [hc.1, hc.2]
  · intro nS nC oldS oldC hbS hbC hdS hdC hSne hCne s hs
    unfold activateTrace at hs
    by_cases hrun : (activateStep ai ws b d m v).2.2 = true
    · rw [if_pos hrun] at hs
      fin_cases hs
      · rintro (⟨_, h2⟩ | ⟨h1, _⟩)
        · exact hdC h2
        · exact hdS h1
      · simp [removeOldSkillFiles]
      · simp [copySkillMd, removeOldSkillFiles, hbS, hSne, hCne]
      · simp [copyCodeReviewMd, copySkillMd, removeOldSkillFiles, hbS, hbC, hSne, hCne]
    · rw [if_neg hrun] at hs
      fin_cases hs
      rintro (⟨_, h2⟩ | ⟨h1, _⟩)
      · exact hdC h2
      · exact hdS h1

/-- Witness for C5: a version bump (`0.0.1` to `0.0.2`) over a destination
holding old-version copies; the install pass runs, and the final trace state
(both files freshly copied) mixes no versions. -/
theorem activateStep_policy_witness :
    (activateStep true (some "ws") ⟨some "newS", some "newC"⟩
        ⟨some "oldS", some "oldC"⟩ ⟨[], "0.0.1"⟩ "0.0.2").2.2 = true ∧
    ¬((some "newS" = some "oldS" ∧ some "newC" = some "newC") ∨
      (some "newS" = some "newS" ∧ some "newC" = some "oldC")) :=
  ⟨(activateStep_policy true (some "ws") ⟨some "newS", some "newC"⟩
      ⟨some "oldS", some "oldC"⟩ ⟨[], "0.0.1"⟩ "0.0.2").1.mpr
      ⟨rfl, rfl, Or.inr (by decide)⟩,
   (activateStep_policy true (some "ws") ⟨some "newS", some "newC"⟩
      ⟨some "oldS", some "oldC"⟩ ⟨[], "0.0.1"⟩ "0.0.2").2
      "newS" "newC" "oldS" "oldC" rfl rfl (by decide) (by decide)
      (by decide) (by decide) ⟨some "newS", some "newC"⟩ (by decide)⟩

/-- C6: the manifest update of `installSkillFiles` adds the destination only
when it is not already a member, and running it twice on a manifest that
does not already duplicate the destination leaves the destination recorded
exactly once. -/
theorem installManifestUpdate_no_duplicates (m : InstalledSkillManifest)
    (destDir v : String) (h : m.installedPaths.count destDir ≤ 1) :
    (destDir ∈ m.installedPaths →
      (installManifestUpdate m destDir v).installedPaths = m.installedPaths) ∧
    (installManifestUpdate (installManifestUpdate m destDir v) destDir
        v).installedPaths.count destDir = 1 := by
  constructor
  · intro hmem
    simp [installManifestUpdate, hmem]
  · by_cases hmem : destDir ∈ m.installedPaths
    · have hpos : 0 < m.installedPaths.count destDir := List.count_pos_iff.mpr hmem
      simp [installManifestUpdate, hmem]
      omega
    · have hzero : m.installedPaths.count destDir = 0 := List.count_eq_zero.mpr hmem
      simp [installManifestUpdate, hmem, List.count_append, hzero]

/-- Witness for C6: installing `/ws/.agents/skills/code-review` twice into a
manifest that records one other path leaves it recorded exactly once, and
updating a manifest already recording it leaves the list unchanged. -/
theorem installManifestUpdate_no_duplicates_witness :
    ((installManifestUpdate (installManifestUpdate ⟨["other"], ""⟩
        "/ws/.agents/skills/code-review" "1.0.0")
        "/ws/.agents/skills/code-review" "1.0.0").installedPaths.count
      "/ws/.agents/skills/code-review" = 1) ∧
    ((installManifestUpdate ⟨["/ws/.agents/skills/code-review"], ""⟩
        "/ws/.agents/skills/code-review" "1.0.0").installedPaths =
      ["/ws/.agents/skills/code-review"]) :=
  ⟨(installManifestUpdate_no_duplicates ⟨["other"], ""⟩
      "/ws/.agents/skills/code-review" "1.0.0" (by decide)).2,
   (installManifestUpdate_no_duplicates ⟨["/ws/.agents/skills/code-review"], ""⟩
      "/ws/.agents/skills/code-review" "1.0.0" (by decide)).1 (by decide)⟩

/-- Helper: the final manifest cleanup of `deactivate` always removes the
manifest file when the unlink does not throw. -/
theorem deactivateManifestCleanup_fileExists (failRmdir : Bool) (m : ManifestFsState) :
    (deactivateManifestCleanup false failRmdir m).manifestFileExists = false := by
  unfold deactivateManifestCleanup
  split
  · simp_all
  · split <;> rfl

/-- Helper: with nothing else in the manifest directory and no throwing
calls, the final manifest cleanup also removes the directory. -/
theorem deactivateManifestCleanup_dirExists (m : ManifestFsState)
    (h0 : m.manifestDirOtherEntries = 0) :
    (deactivateManifestCleanup false false m).manifestDirExists = false := by
  unfold deactivateManifestCleanup
  split
  · simp_all
  · cases hd : m.manifestDirExists <;> simp [manifestDirEntryCount, h0, hd]

/-- C7: teardown with cleanup enabled.  The manifest file is deleted (and
its directory when empty) no matter which per-directory deletions throw; the
loop handles every manifest entry; and an entry whose deletions all succeed
ends with both documentation files gone, the request document at its
workspace root gone, and the directory itself gone exactly when nothing else
remained in it. -/
theorem deactivate_cleanup_enabled (dirs : List (DirFail × DirState))
    (failMRmdir : Bool) (m : ManifestFsState) :
    ((deactivate true dirs false failMRmdir m).2.manifestFileExists = false) ∧
    (m.manifestDirOtherEntries = 0 → failMRmdir = false →
      (deactivate true dirs false failMRmdir m).2.manifestDirExists = false) ∧
    ((deactivate true dirs false failMRmdir m).1 =
      dirs.map fun p => deactivateCleanupDir p.1 p.2) ∧
    (∀ p ∈ dirs, p.1 = noDirFail →
      deactivateCleanupDir p.1 p.2 =
        { skillMd := false, codeReviewMd := false,
          otherEntries := p.2.otherEntries,
          dirExists := p.2.dirExists && !(p.2.otherEntries == 0),
          reviewRequest := false }) := by
  refine ⟨?_, ?_, ?_, ?_⟩
  · simp only [deactivate, Bool.not_true, Bool.false_eq_true, if_false]
    exact deactivateManifestCleanup_fileExists failMRmdir m
  · intro h0 hf
    subst hf
    simp only [deactivate, Bool.not_true, Bool.false_eq_true, if_false]
    exact deactivateManifestCleanup_dirExists m h0
  · simp [deactivate]
  · intro p hp hf
    rcases p with ⟨f, d⟩
    simp only at hf
    subst hf
    rcases d with ⟨s, c, o, de, rr⟩
    simp only [deactivateCleanupDir, noDirFail, dirEntryCount, Bool.not_false,
      Bool.and_true]
    cases s <;> cases c <;> cases rr <;> cases de <;>
      by_cases ho : o = 0 <;> simp [ho]

/-- Witness for C7: a two-entry manifest whose first directory cleans up
fully and whose second directory throws on every deletion; the manifest file
is still deleted, and the first directory ends fully cleaned. -/
theorem deactivate_cleanup_enabled_witness :
    ((deactivate true
        [(noDirFail, ⟨true, true, 0, true, true⟩),
         (⟨true, true, true, true⟩, ⟨true, true, 2, true, true⟩)]
        false false ⟨true, 0, true⟩).2.manifestFileExists = false) ∧
    (deactivateCleanupDir noDirFail ⟨true, true, 0, true, true⟩ =
      { skillMd := false, codeReviewMd := false, otherEntries := 0,
        dirExists := false, reviewRequest := false }) := by
  have h := deactivate_cleanup_enabled
    [(noDirFail, ⟨true, true, 0, true, true⟩),
     (⟨true, true, true, true⟩, ⟨true, true, 2, true, true⟩)]
    false ⟨true, 0, true⟩
  exact ⟨h.1, by
    have h2 := h.2.2.2 (noDirFail, ⟨true, true, 0, true, true⟩) (by decide) rfl
    simpa using h2⟩

/-- Helper: the uninstall loop on a list whose prefix entries all clean up
without throwing and whose next entry throws: the prefix is processed, the
throwing entry keeps its partial state, every later entry is untouched, and
the loop reports the throw. -/
theorem uninstallDirs_throw (f : DirFail) (d : DirState)
    (rest : List (DirFail × DirState))
    (hthrow : (uninstallDirStep f d).2 = true) :
    ∀ pre : List (DirFail × DirState),
      (∀ q ∈ pre, (uninstallDirStep q.1 q.2).2 = false) →
      uninstallDirs (pre ++ (f, d) :: rest) =
        ((pre.map fun q => (uninstallDirStep q.1 q.2).1) ++
          (uninstallDirStep f d).1 :: rest.map fun q => q.2, true) := by
  intro pre
  induction pre with
  | nil =>
    intro _
    simp [uninstallDirs, hthrow]
  | cons q pre ih =>
    intro h
    have hq := h q (List.mem_cons_self q pre)
    have hpre : ∀ r ∈ pre, (uninstallDirStep r.1 r.2).2 = false :=
      fun r hr => h r (List.mem_cons_of_mem q hr)
    simp [uninstallDirs, hq, ih hpre]

/-- C10: in the uninstall hook the cleanup loop and the manifest deletion
share one error handler: when a directory entry throws during deletion (and
the entries before it did not), every later manifest entry is left
untouched and the manifest file survives; under the same failures,
deactivation teardown still deletes the manifest file. -/
theorem removeSkillFiles_single_handler (pre : List (DirFail × DirState))
    (f : DirFail) (d : DirState) (rest : List (DirFail × DirState))
    (m : ManifestFsState) (hm : m.manifestFileExists = true)
    (hthrow : (uninstallDirStep f d).2 = true)
    (hpre : ∀ q ∈ pre, (uninstallDirStep q.1 q.2).2 = false) :
    (removeSkillFiles (pre ++ (f, d) :: rest) false false m).2 = m ∧
    (removeSkillFiles (pre ++ (f, d) :: rest) false false m).1 =
      (pre.map fun q => (uninstallDirStep q.1 q.2).1) ++
        (uninstallDirStep f d).1 :: (rest.map fun q => q.2) ∧
    (deactivate true (pre ++ (f, d) :: rest) false false m).2.manifestFileExists =
      false := by
  have hloop := uninstallDirs_throw f d rest hthrow pre hpre
  refine ⟨?_, ?_, ?_⟩
  · simp [removeSkillFiles, hm, hloop]
  · simp [removeSkillFiles, hm, hloop]
  · simp only [deactivate, Bool.not_true, Bool.false_eq_true, if_false]
    exact deactivateManifestCleanup_fileExists false m

/-- Helper: a string occurs in the concatenation that places it between two
others. -/
theorem strContains_middle (a pat b : String) : StrContains (a ++ pat ++ b) pat :=
  ⟨a.data, b.data, by simp [String.data_append]⟩

set_option maxRecDepth 10000 in
/-- C8: the review-active-file command with no open editor reports an error
and produces no request document; with an open editor it emits a document
embedding the file path, the file name and the full current text, and in
either case the handler never invokes git. -/
theorem reviewActiveFile_spec :
    ((reviewActiveFile none).requestDoc = none ∧
     (reviewActiveFile none).errorMessage = some "No file is currently open." ∧
     (reviewActiveFile none).gitInvocations = 0) ∧
    ∀ e : EditorState,
      (reviewActiveFile (some e)).gitInvocations = 0 ∧
      ∃ doc : String, (reviewActiveFile (some e)).requestDoc = some doc ∧
        StrContains doc e.filePath ∧
        StrContains doc (pathBasename e.filePath) ∧
        StrContains doc e.text := by
  refine ⟨⟨rfl, rfl, rfl⟩, fun e => ⟨rfl, activeFileRequest e, rfl, ?_, ?_, ?_⟩⟩
  · refine ⟨("\n# Code Review Request (Single File)\n\n**TARGET_FILE:** "
        ++ pathBasename e.filePath ++ "\n**FILE_PATH:** ").data,
      ("\n**DESCRIPTION:** Targeted review for the current active file.\n\n## TASK FOR AGENT\nPerform a deep-dive review of the code provided below. Focus heavily on:\n- Morakot snake_case/CamelCase naming rules.\n- XSS prevention in Jinja/HTML templates.\n- Function verb requirements (is, get, set, etc.).\n\n---\n### Source Code\n```"
        ++ e.languageId ++ "\n" ++ e.text ++ "\n```\n").data, ?_⟩
    simp [activeFileRequest, String.data_append]
  · refine ⟨("\n# Code Review Request (Single File)\n\n**TARGET_FILE:** ").data,
      ("\n**FILE_PATH:** " ++ e.filePath
        ++ "\n**DESCRIPTION:** Targeted review for the current active file.\n\n## TASK FOR AGENT\nPerform a deep-dive review of the code provided below. Focus heavily on:\n- Morakot snake_case/CamelCase naming rules.\n- XSS prevention in Jinja/HTML templates.\n- Function verb requirements (is, get, set, etc.).\n\n---\n### Source Code\n```"
        ++ e.languageId ++ "\n" ++ e.text ++ "\n```\n").data, ?_⟩
    simp [activeFileRequest, String.data_append]
  · refine ⟨("\n# Code Review Request (Single File)\n\n**TARGET_FILE:** "
        ++ pathBasename e.filePath ++ "\n**FILE_PATH:** " ++ e.filePath
        ++ "\n**DESCRIPTION:** Targeted review for the current active file.\n\n## TASK FOR AGENT\nPerform a deep-dive review of the code provided below. Focus heavily on:\n- Morakot snake_case/CamelCase naming rules.\n- XSS prevention in Jinja/HTML templates.\n- Function verb requirements (is, get, set, etc.).\n\n---\n### Source Code\n```"
        ++ e.languageId ++ "\n").data,
      ("\n```\n").data, ?_⟩
    simp [activeFileRequest, String.data_append]

/-- Witness for C10: a two-entry manifest where the first entry throws while
unlinking `SKILL.md`: the second entry is untouched and the manifest file
survives, while deactivation teardown under the same state deletes the
manifest file. -/
theorem removeSkillFiles_single_handler_witness :
    (removeSkillFiles (([] : List (DirFail × DirState)) ++
        (⟨true, false, false, false⟩, ⟨true, true, 0, true, false⟩) ::
        [(noDirFail, ⟨true, true, 0, true, true⟩)]) false false ⟨true, 0, true⟩).2 =
      (⟨true, 0, true⟩ : ManifestFsState) ∧
    (removeSkillFiles (([] : List (DirFail × DirState)) ++
        (⟨true, false, false, false⟩, ⟨true, true, 0, true, false⟩) ::
        [(noDirFail, ⟨true, true, 0, true, true⟩)]) false false ⟨true, 0, true⟩).1 =
      (([] : List (DirFail × DirState)).map fun q => (uninstallDirStep q.1 q.2).1) ++
        (uninstallDirStep ⟨true, false, false, false⟩ ⟨true, true, 0, true, false⟩).1 ::
          ([(noDirFail, (⟨true, true, 0, true, true⟩ : DirState))].map fun q => q.2) ∧
    (deactivate true (([] : List (DirFail × DirState)) ++
        (⟨true, false, false, false⟩, ⟨true, true, 0, true, false⟩) ::
        [(noDirFail, ⟨true, true, 0, true, true⟩)]) false false
        ⟨true, 0, true⟩).2.manifestFileExists = false :=
  removeSkillFiles_single_handler [] ⟨true, false, false, false⟩
    ⟨true, true, 0, true, false⟩ [(noDirFail, ⟨true, true, 0, true, true⟩)]
    ⟨true, 0, true⟩ rfl (by decide) (by simp)
